import Mathlib

/-!
# minimal-gpu-monitor (`mgm.c`): interception hooks and driver-state sampler

A shallow embedding of `src/mgm.c`.

* The three hooks `cudaMalloc`, `cudaFree`, `cudaLaunchKernel` are functions on the
  process state: the function-local `static` variables, the state of everything
  outside the monitor (the dynamic linker, the real runtime, device and host memory),
  and the chronological list of external actions the hook performed (`dlsym` lookups,
  calls through the cached pointers, `printf`, `fflush`).
* `size_t` is the 64-bit unsigned type: values are naturals reduced modulo `2 ^ 64`.
* A call through a `NULL` function pointer does not return: hooks yield `none`.
* The sampler (`read_file`, `print_gpu_processes`, one iteration of
  `gpu_poll_thread`) is a function from the file system to the text written on
  standard output; a character stands for one byte.
-/

namespace Mgm

/-! ## Data model of the hooks -/

/-- Addresses: `void *`, `void **`, function pointers, `cudaStream_t`. `0` is `NULL`. -/
abbrev Ptr := Nat

/-- The status enumeration returned by the runtime entry points. -/
abbrev cudaError_t := Int

/-- The success status. -/
def cudaSuccess : cudaError_t := 0

/-- Number of values of `size_t` (64-bit). -/
def SIZE_MOD : Nat := 2 ^ 64

/-- Launch dimensions: three `unsigned int` components. -/
structure dim3 where
  x : Nat
  y : Nat
  z : Nat
deriving DecidableEq, Repr

/-- One variadic argument handed to `printf`, tagged by its C type. -/
inductive Arg where
  | int (v : Int)
  | uint (v : Nat)
  | size (v : Nat)
  | double (v : ℚ)
  | ptr (v : Ptr)
deriving DecidableEq

/-- External actions of a hook, in the order the code performs them. -/
inductive Event where
  /-- The lookup `dlsym(RTLD_NEXT, name)`. -/
  | dlsym (name : String)
  /-- The call `real_malloc(ptr, size)` through the function pointer `fp`. -/
  | call_malloc (fp : Ptr) (ptr : Ptr) (size : Nat)
  /-- The call `real_free(ptr)` through the function pointer `fp`. -/
  | call_free (fp : Ptr) (ptr : Ptr)
  /-- The call `real_launch(func, gridDim, blockDim, args, sharedMem, stream)` through `fp`. -/
  | call_launch (fp : Ptr) (func : Ptr) (gridDim blockDim : dim3) (args : Ptr)
      (sharedMem : Nat) (stream : Ptr)
  /-- The call `printf(fmt, args...)`. -/
  | printf (fmt : String) (args : List Arg)
  /-- The call `fflush(stdout)`. -/
  | fflush
deriving DecidableEq

/-- Everything the hooks call but do not implement. `W` is the state of the world
outside the monitor (linker, runtime, memory); every external operation may read and
change it. The real entry points are reached through a function pointer `fp`:
`call_malloc fp` is the function stored at address `fp`. -/
structure Runtime (W : Type) where
  dlsym : String → W → Ptr × W
  getpid : W → Int
  call_malloc : Ptr → Ptr → Nat → W → cudaError_t × W
  call_free : Ptr → Ptr → W → cudaError_t × W
  call_launch : Ptr → Ptr → dim3 → dim3 → Ptr → Nat → Ptr → W → cudaError_t × W

/-- The process as the hooks see it: their `static` locals, the outside world and
the actions performed so far (oldest first). -/
structure Proc (W : Type) where
  real_malloc : Ptr
  process_total : Nat
  real_free : Ptr
  real_launch : Ptr
  world : W
  trace : List Event

/-- State at load time: the static initialisers `NULL` and `0`, nothing done yet. -/
def Proc.init {W : Type} (w : W) : Proc W :=
  { real_malloc := 0, process_total := 0, real_free := 0, real_launch := 0,
    world := w, trace := [] }

/-- The conversion `(double)process_total`: the nearest 53-bit-significand value,
ties to even. The result is again an integer. -/
def to_double (n : Nat) : Nat :=
  if n < 2 ^ 53 then n
  else
    let e := Nat.log2 n - 52
    let q := n / 2 ^ e
    let r := n % 2 ^ e
    let half := 2 ^ (e - 1)
    let q1 := if half < r ∨ (r = half ∧ q % 2 = 1) then q + 1 else q
    q1 * 2 ^ e

/-- The value `gb = (double)process_total / (1024.0 * 1024.0 * 1024.0)`; dividing a
double in this range by a power of two is exact. -/
def gb (process_total : Nat) : ℚ :=
  (to_double process_total : ℚ) / (1024 * 1024 * 1024)

/-- Decimal digits of `n`, left-padded with zeros to at least `w` digits. -/
def zero_pad (w : Nat) (n : Nat) : String :=
  let s := Nat.repr n
  String.mk (List.replicate (w - s.length) '0') ++ s

/-- The C library's `%.3f` conversion of a non-negative finite value `n / d`: the exact
value rounded to the nearest thousandth, ties to even. -/
def fmt_3f (v : ℚ) : String :=
  let n := v.num.toNat
  let d := v.den
  let lo := 1000 * n / d
  let rem := 1000 * n % d
  let m := if d < 2 * rem ∨ (2 * rem = d ∧ lo % 2 = 1) then lo + 1 else lo
  Nat.repr (m / 1000) ++ "." ++ zero_pad 3 (m % 1000)

/-- The lazy resolution `if (!slot) slot = dlsym(RTLD_NEXT, name);` of one cache slot:
the slot's new value, the world and the trace afterwards. -/
def resolve {W : Type} (rt : Runtime W) (name : String) (slot : Ptr) (w : W)
    (trace : List Event) : Ptr × W × List Event :=
  if slot = 0 then
    ((rt.dlsym name w).1, (rt.dlsym name w).2, trace ++ [Event.dlsym name])
  else (slot, w, trace)

/-- The hook `cudaMalloc(ptr, size)`. -/
def cudaMalloc {W : Type} (rt : Runtime W) (ptr : Ptr) (size : Nat) (p : Proc W) :
    Option (cudaError_t × Proc W) :=
  let r := resolve rt "cudaMalloc" p.real_malloc p.world p.trace
  let real_malloc := r.1
  if real_malloc = 0 then none
  else
    let res := rt.call_malloc real_malloc ptr size r.2.1
    let err := res.1
    let process_total := (p.process_total + size) % SIZE_MOD
    let line := Event.printf "[PID %d] total allocated: %.3f GB (%zu bytes)\n"
      [Arg.int (rt.getpid res.2), Arg.double (gb process_total), Arg.size process_total]
    some (err,
      { p with
        real_malloc := real_malloc
        process_total := process_total
        world := res.2
        trace := r.2.2 ++ [Event.call_malloc real_malloc ptr size, line, Event.fflush] })

/-- The hook `cudaFree(ptr)`. -/
def cudaFree {W : Type} (rt : Runtime W) (ptr : Ptr) (p : Proc W) :
    Option (cudaError_t × Proc W) :=
  let r := resolve rt "cudaFree" p.real_free p.world p.trace
  let real_free := r.1
  if real_free = 0 then none
  else
    let res := rt.call_free real_free ptr r.2.1
    some (res.1,
      { p with
        real_free := real_free
        world := res.2
        trace := r.2.2 ++ [Event.fflush, Event.call_free real_free ptr] })

/-- The hook `cudaLaunchKernel(func, gridDim, blockDim, args, sharedMem, stream)`. -/
def cudaLaunchKernel {W : Type} (rt : Runtime W) (func : Ptr) (gridDim blockDim : dim3)
    (args : Ptr) (sharedMem : Nat) (stream : Ptr) (p : Proc W) :
    Option (cudaError_t × Proc W) :=
  let r := resolve rt "cudaLaunchKernel" p.real_launch p.world p.trace
  let real_launch := r.1
  let line := Event.printf "[CUDA] Launch kernel %p grid(%d,%d,%d) block(%d,%d,%d)\n"
    [Arg.ptr func, Arg.uint gridDim.x, Arg.uint gridDim.y, Arg.uint gridDim.z,
     Arg.uint blockDim.x, Arg.uint blockDim.y, Arg.uint blockDim.z]
  if real_launch = 0 then none
  else
    let res := rt.call_launch real_launch func gridDim blockDim args sharedMem stream r.2.1
    some (res.1,
      { p with
        real_launch := real_launch
        world := res.2
        trace := r.2.2 ++ [line, Event.fflush,
          Event.call_launch real_launch func gridDim blockDim args sharedMem stream] })

/-- One call of the host into a hooked entry point. -/
inductive Call where
  | malloc (ptr : Ptr) (size : Nat)
  | free (ptr : Ptr)
  | launch (func : Ptr) (gridDim blockDim : dim3) (args : Ptr) (sharedMem : Nat)
      (stream : Ptr)
deriving DecidableEq

/-- Dispatch of a host call to its hook. -/
def hook {W : Type} (rt : Runtime W) (c : Call) (p : Proc W) :
    Option (cudaError_t × Proc W) :=
  match c with
  | Call.malloc ptr size => cudaMalloc rt ptr size p
  | Call.free ptr => cudaFree rt ptr p
  | Call.launch func g b args sh st => cudaLaunchKernel rt func g b args sh st p

/-- A sequence of host calls made one after another on one thread; the result is the
final process state, or `none` if some call went through a null pointer. -/
def run {W : Type} (rt : Runtime W) : List Call → Proc W → Option (Proc W)
  | [], p => some p
  | c :: cs, p =>
    match hook rt c p with
    | none => none
    | some (_, p1) => run rt cs p1

/-- The byte total an event reports: the `%zu` argument of an allocation line. -/
def reported_total : Event → Option Nat
  | Event.printf "[PID %d] total allocated: %.3f GB (%zu bytes)\n" [_, _, Arg.size t] => some t
  | _ => none

/-- The byte totals reported so far, oldest first. -/
def reported_totals (trace : List Event) : List Nat := trace.filterMap reported_total

/-- Number of `dlsym` lookups of `name` in a trace. -/
def lookups (name : String) (trace : List Event) : Nat :=
  (trace.filter (fun e => decide (e = Event.dlsym name))).length

/-- Whether an event is a call through one of the cached function pointers. -/
def is_call : Event → Bool
  | Event.call_malloc _ _ _ => true
  | Event.call_free _ _ => true
  | Event.call_launch _ _ _ _ _ _ _ => true
  | _ => false

/-- The delegated calls of a trace, in order. -/
def delegations (trace : List Event) : List Event := trace.filter is_call

/-- The three interposed entry points. -/
inductive Hook where
  | malloc
  | free
  | launch
deriving DecidableEq

/-- The entry point a host call enters. -/
def Call.kind : Call → Hook
  | Call.malloc _ _ => Hook.malloc
  | Call.free _ => Hook.free
  | Call.launch _ _ _ _ _ _ => Hook.launch

/-- The symbol name a hook passes to `dlsym`. -/
def Hook.symbol : Hook → String
  | Hook.malloc => "cudaMalloc"
  | Hook.free => "cudaFree"
  | Hook.launch => "cudaLaunchKernel"

/-- The `static` cache slot of a hook. -/
def Hook.slot {W : Type} (k : Hook) (p : Proc W) : Ptr :=
  match k with
  | Hook.malloc => p.real_malloc
  | Hook.free => p.real_free
  | Hook.launch => p.real_launch

/-- The delegated call that forwards host call `c` unchanged through pointer `fp`. -/
def Call.forwarded (fp : Ptr) : Call → Event
  | Call.malloc ptr size => Event.call_malloc fp ptr size
  | Call.free ptr => Event.call_free fp ptr
  | Call.launch func g b args sh st => Event.call_launch fp func g b args sh st

/-- Sum of the sizes of the allocation calls of a sequence. -/
def alloc_sum : List Call → Nat
  | [] => 0
  | Call.malloc _ size :: cs => size + alloc_sum cs
  | _ :: cs => alloc_sum cs

/-- The counter after a host call that returns: only an allocation changes it, by
adding its size in `size_t` arithmetic. -/
def counter_after (c : Call) (total : Nat) : Nat :=
  match c with
  | Call.malloc _ size => (total + size) % SIZE_MOD
  | _ => total

/-- The counter after a sequence of host calls that all return. -/
def counter_run (calls : List Call) (total : Nat) : Nat :=
  calls.foldl (fun t c => counter_after c t) total

/-- The totals reported during a sequence of host calls that all return: one per
allocation, the counter right after its update. -/
def totals_run : List Call → Nat → List Nat
  | [], _ => []
  | c :: cs, total =>
    (if c.kind = Hook.malloc then [counter_after c total] else [])
      ++ totals_run cs (counter_after c total)

/-! ## Driver-state sampler -/

/-- The file system as `fopen(path, "r")` sees it: the bytes of a readable file, or
`none` when opening fails. -/
abbrev Files := String → Option (List Char)

/-- The information file read each cycle. -/
def info_path : String := "/proc/driver/nvidia/gpus/0/information"

/-- The per-process memory table read each cycle. -/
def processes_path : String := "/proc/driver/nvidia/gpus/0/processes"

/-- The characters one `fgets` call stores when the buffer has room for `room`
characters, and the unread rest of the stream: reading stops after a newline, at end
of file, or when the room is used up. -/
def fgets_chars : Nat → List Char → List Char × List Char
  | 0, s => ([], s)
  | _ + 1, [] => ([], [])
  | room + 1, c :: s =>
    if c = '\n' then ([c], s)
    else (c :: (fgets_chars room s).1, (fgets_chars room s).2)

/-- The call `fgets(line, n, f)`: `none` (a null result) at end of file, otherwise the
characters stored in the buffer (at most `n - 1`) and the rest of the stream. -/
def fgets (n : Nat) (stream : List Char) : Option (List Char × List Char) :=
  match stream with
  | [] => none
  | _ :: _ => some (fgets_chars (n - 1) stream)

/-- The string a buffer holds as seen by `printf("%s")` and `sscanf`: the characters
before the first NUL. -/
def c_str (buf : List Char) : List Char := buf.takeWhile (fun c => c != Char.ofNat 0)

/-- The loop `while (fgets(line, sizeof(line), f)) printf("%s", line);` of `read_file`
on the unread part of the file; `fuel` bounds the number of iterations. -/
def read_file_loop : Nat → List Char → List Char
  | 0, _ => []
  | fuel + 1, stream =>
    match fgets 256 stream with
    | none => []
    | some (line, rest) => c_str line ++ read_file_loop fuel rest

/-- The function `read_file(path, label)`: the text it writes to standard output. Every
iteration of the loop consumes at least one character, so `content.length` iterations
exhaust the file. -/
def read_file (fs : Files) (path : String) (label : List Char) : List Char :=
  match fs path with
  | none => []
  | some content =>
    "== ".toList ++ c_str label ++ " ==\n".toList
      ++ read_file_loop content.length content ++ "\n".toList

/-- White space in the C locale. -/
def isspace (c : Char) : Bool :=
  c = ' ' || c = '\t' || c = '\n' || c = Char.ofNat 11 || c = Char.ofNat 12 || c = '\r'

/-- Decimal digits. -/
def isdigit (c : Char) : Bool := decide ('0' ≤ c) && decide (c ≤ '9')

/-- Value of a run of decimal digits. -/
def digits_value (ds : List Char) : Nat :=
  ds.foldl (fun acc c => 10 * acc + (c.toNat - '0'.toNat)) 0

/-- The input item of an integer conversion (`%d`, `%zu`): after leading white space,
an optional sign and a non-empty run of decimal digits. Yields whether a minus sign was
read, the magnitude and the unread rest; `none` when the conversion fails. -/
def scan_integer (s : List Char) : Option (Bool × Nat × List Char) :=
  let s1 := s.dropWhile isspace
  let signed : Bool × List Char :=
    match s1 with
    | '-' :: t => (true, t)
    | '+' :: t => (false, t)
    | _ => (false, s1)
  let ds := signed.2.takeWhile isdigit
  match ds with
  | [] => none
  | _ :: _ => some (signed.1, digits_value ds, signed.2.dropWhile isdigit)

/-- The `int` stored by `%d`: the digits are converted as by `strtol` (clamped to the
range of `long`) and the result is narrowed to 32 bits. -/
def int_of_scan (neg : Bool) (magnitude : Nat) : Int :=
  let l : Int := if neg then max (-(magnitude : Int)) (-(2 ^ 63)) else min magnitude (2 ^ 63 - 1)
  (l + 2 ^ 31) % 2 ^ 32 - 2 ^ 31

/-- The `size_t` stored by `%zu`: the digits are converted as by `strtoul` (clamped to
the largest value; a minus sign negates modulo `2 ^ 64`). -/
def size_of_scan (neg : Bool) (magnitude : Nat) : Nat :=
  if SIZE_MOD ≤ magnitude then SIZE_MOD - 1
  else if neg then (SIZE_MOD - magnitude) % SIZE_MOD
  else magnitude

/-- A decoded row of the per-process table: the values stored in `pid`, `type`, `mem`. -/
structure Row where
  pid : Int
  type : Char
  mem : Nat
deriving DecidableEq, Repr

/-- The test `sscanf(line, "%d %d %c %*s %zu", &gpu, &pid, &type, &mem) == 4` on the
string `line`: `some row` when all four assignments were made, `none` otherwise. -/
def sscanf_line (line : List Char) : Option Row :=
  match scan_integer line with
  | none => none
  | some (_, _, s1) =>
    match scan_integer (s1.dropWhile isspace) with
    | none => none
    | some (pneg, pmag, s2) =>
      match s2.dropWhile isspace with
      | [] => none
      | type :: s3 =>
        let s4 := (s3.dropWhile isspace).dropWhile isspace
        match s4.takeWhile (fun c => !isspace c) with
        | [] => none
        | _ :: _ =>
          match scan_integer ((s4.dropWhile (fun c => !isspace c)).dropWhile isspace) with
          | none => none
          | some (mneg, mmag, _) =>
            some { pid := int_of_scan pneg pmag, type := type, mem := size_of_scan mneg mmag }

/-- Left justification in a field of width `w`: spaces are appended up to `w`. -/
def pad_right (w : Nat) (s : List Char) : List Char :=
  s ++ List.replicate (w - s.length) ' '

/-- The text of `printf("%-7d %-6c %zu\n", pid, type, mem)`. -/
def printf_row (r : Row) : List Char :=
  pad_right 7 (Int.repr r.pid).toList ++ " ".toList ++ pad_right 6 [r.type] ++ " ".toList
    ++ (Nat.repr r.mem).toList ++ "\n".toList

/-- The body of the loop of `print_gpu_processes` for one buffer content. -/
def print_line (line : List Char) : List Char :=
  match sscanf_line (c_str line) with
  | some r => printf_row r
  | none => []

/-- The loop `while (fgets(line, sizeof(line), f)) { ... }` of `print_gpu_processes` on
the unread part of the file; `fuel` bounds the number of iterations. -/
def print_gpu_processes_loop : Nat → List Char → List Char
  | 0, _ => []
  | fuel + 1, stream =>
    match fgets 256 stream with
    | none => []
    | some (line, rest) => print_line line ++ print_gpu_processes_loop fuel rest

/-- The two header lines of the process table. -/
def table_header : List Char :=
  "PID     Type   GPU Memory (MiB)\n".toList ++ "--------------------------------\n".toList

/-- The function `print_gpu_processes()`: the text it writes to standard output. -/
def print_gpu_processes (fs : Files) : List Char :=
  match fs processes_path with
  | none => []
  | some content => table_header ++ print_gpu_processes_loop content.length content

/-- What one iteration of the loop of `gpu_poll_thread` does: the text written and the
argument of the closing `usleep`. -/
structure Cycle where
  output : List Char
  usleep : Int
deriving DecidableEq

/-- One iteration of the loop of `gpu_poll_thread`. -/
def gpu_poll_cycle (fs : Files) (delay_ms : Int) : Cycle :=
  { output := read_file fs info_path "GPU Info".toList ++ print_gpu_processes fs
    usleep := delay_ms * 1000 }

/-- The first `n` iterations of `gpu_poll_thread`, the file system at iteration `k`
being `fs k`. The loop itself never ends. -/
def gpu_poll_thread (delay_ms : Int) (fs : Nat → Files) (n : Nat) : List Cycle :=
  (List.range n).map (fun k => gpu_poll_cycle (fs k) delay_ms)

/-- A file of the given text lines, each followed by a newline. -/
def file_of_lines (lines : List (List Char)) : List Char :=
  lines.flatMap (fun l => l ++ ['\n'])

/-- The row a text line of the table decodes to, if it has the expected shape: the
result of the `sscanf` test on the line as it sits in the buffer. -/
def row_of_line (l : List Char) : Option Row := sscanf_line (c_str (l ++ ['\n']))

/-! ## Concurrent callers of the allocation hook

The statement `process_total += size;` is a plain (non-atomic) read of the static
counter followed by a plain write of the sum. Threads inside the hook are interleaved
at the granularity of these two memory accesses. -/

/-- Where a thread stands in `process_total += size;`. -/
inductive Phase where
  /-- The counter has not been read yet. -/
  | before_read
  /-- The counter has been read as `tmp`; the sum has not been written yet. -/
  | after_read (tmp : Nat)
  /-- The sum has been written; the call returns. -/
  | returned
deriving DecidableEq

/-- The shared counter and the phase of every thread (by thread index). -/
structure Racing where
  process_total : Nat
  phase : Nat → Phase

/-- All threads are about to execute the update; the counter is zero. -/
def Racing.start : Racing :=
  { process_total := 0, phase := fun _ => Phase.before_read }

/-- Thread `i`, whose call has argument `sizes[i]`, performs its next memory access. -/
def race_step (sizes : List Nat) (i : Nat) (c : Racing) : Racing :=
  match c.phase i with
  | Phase.before_read =>
    { c with phase := Function.update c.phase i (Phase.after_read c.process_total) }
  | Phase.after_read tmp =>
    { process_total := (tmp + sizes.getD i 0) % SIZE_MOD
      phase := Function.update c.phase i Phase.returned }
  | Phase.returned => c

/-- Execution of a schedule: the list of thread indices in the order they step. -/
def race_exec (sizes : List Nat) (schedule : List Nat) (c : Racing) : Racing :=
  schedule.foldl (fun c i => race_step sizes i c) c

/-- Every one of the `k` threads has finished its update. -/
def all_returned (k : Nat) (c : Racing) : Bool :=
  (List.range k).all (fun i => decide (c.phase i = Phase.returned))

/-- The schedule in which the threads of `order` run their two accesses back to back,
one thread after the other. -/
def serial_schedule (order : List Nat) : List Nat :=
  order.flatMap (fun i => [i, i])

/-! ## Stub runtimes used to evaluate the hooks -/

/-- A stub runtime whose world is the list of `(ptr, size)` pairs and pointers its
entry points were called with. Every symbol resolves to address `4096`; the stub
allocator fails with status `2`, the others succeed. -/
def recording_stub : Runtime (List (Ptr × Nat)) :=
  { dlsym := fun _ w => (4096, w)
    getpid := fun _ => 4242
    call_malloc := fun _ ptr size w => (2, w ++ [(ptr, size)])
    call_free := fun _ ptr w => (0, w ++ [(ptr, 0)])
    call_launch := fun _ func _ _ _ sharedMem _ w => (0, w ++ [(func, sharedMem)]) }

/-- A stub runtime with a trivial world in which every call succeeds. -/
def succeeding_stub : Runtime Unit :=
  { dlsym := fun _ w => (4096, w)
    getpid := fun _ => 4242
    call_malloc := fun _ _ _ w => (cudaSuccess, w)
    call_free := fun _ _ w => (cudaSuccess, w)
    call_launch := fun _ _ _ _ _ _ _ w => (cudaSuccess, w) }

/-- A line of the process table longer than the read buffer: two well-formed records
separated by 246 spaces. -/
def long_line : List Char :=
  "0 1 C x 5".toList ++ List.replicate 246 ' ' ++ "0 2 G y 7".toList

/-- A small well-formed file system: both driver files are present. -/
def sample_files : Files := fun path =>
  if path = processes_path then
    some (file_of_lines ["0 1234 C python 512".toList, "0 77 G".toList,
      "0 4321 G Xorg 64".toList])
  else if path = info_path then some "Model: X\nIRQ: 5".toList
  else none

/-- An information file with a 300-character first line and an unterminated last line. -/
def long_info : List Char := List.replicate 300 'x' ++ "\nIRQ: 5".toList

/-- A file system holding only the information file `long_info`. -/
def long_info_files : Files := fun path =>
  if path = info_path then some long_info else none

/-- A file system holding only the process table made of the single line `long_line`. -/
def long_line_files : Files := fun path =>
  if path = processes_path then some (file_of_lines [long_line]) else none

/-! ## Properties of the hooks -/

set_option maxRecDepth 100000

theorem resolve_of_ne_zero {W : Type} (rt : Runtime W) (name : String) (slot : Ptr) (w : W)
    (trace : List Event) (h : slot ≠ 0) : resolve rt name slot w trace = (slot, w, trace) := by
  simp [resolve, h]

theorem resolve_zero {W : Type} (rt : Runtime W) (name : String) (w : W)
    (trace : List Event) :
    resolve rt name 0 w trace
      = ((rt.dlsym name w).1, (rt.dlsym name w).2, trace ++ [Event.dlsym name]) := by
  simp [resolve]

theorem delegations_append (t1 t2 : List Event) :
    delegations (t1 ++ t2) = delegations t1 ++ delegations t2 := by
  simp [delegations]

theorem lookups_append (name : String) (t1 t2 : List Event) :
    lookups name (t1 ++ t2) = lookups name t1 + lookups name t2 := by
  simp [lookups]

theorem reported_totals_append (t1 t2 : List Event) :
    reported_totals (t1 ++ t2) = reported_totals t1 ++ reported_totals t2 := by
  simp [reported_totals]

/-- The trace of the lazy resolution extends the given trace by at most the lookup. -/
theorem resolve_trace {W : Type} (rt : Runtime W) (name : String) (slot : Ptr) (w : W)
    (trace : List Event) :
    (resolve rt name slot w trace).2.2
      = trace ++ (if slot = 0 then [Event.dlsym name] else []) := by
  by_cases h : slot = 0 <;> simp [resolve, h]

/-- The allocation line printed for a new total in world `w`. -/
theorem cudaMalloc_eq {W : Type} (rt : Runtime W) (ptr : Ptr) (size : Nat) (p : Proc W)
    (fp : Ptr) (w : W) (tr : List Event)
    (hr : resolve rt "cudaMalloc" p.real_malloc p.world p.trace = (fp, w, tr))
    (hfp : fp ≠ 0) :
    cudaMalloc rt ptr size p
      = some ((rt.call_malloc fp ptr size w).1,
          { p with
            real_malloc := fp
            process_total := (p.process_total + size) % SIZE_MOD
            world := (rt.call_malloc fp ptr size w).2
            trace := tr ++ [Event.call_malloc fp ptr size,
              Event.printf "[PID %d] total allocated: %.3f GB (%zu bytes)\n"
                [Arg.int (rt.getpid (rt.call_malloc fp ptr size w).2),
                 Arg.double (gb ((p.process_total + size) % SIZE_MOD)),
                 Arg.size ((p.process_total + size) % SIZE_MOD)],
              Event.fflush] }) := by
  simp only [cudaMalloc, hr, if_neg hfp]

theorem cudaFree_eq {W : Type} (rt : Runtime W) (ptr : Ptr) (p : Proc W)
    (fp : Ptr) (w : W) (tr : List Event)
    (hr : resolve rt "cudaFree" p.real_free p.world p.trace = (fp, w, tr))
    (hfp : fp ≠ 0) :
    cudaFree rt ptr p
      = some ((rt.call_free fp ptr w).1,
          { p with
            real_free := fp
            world := (rt.call_free fp ptr w).2
            trace := tr ++ [Event.fflush, Event.call_free fp ptr] }) := by
  simp only [cudaFree, hr, if_neg hfp]

theorem cudaLaunchKernel_eq {W : Type} (rt : Runtime W) (func : Ptr) (gridDim blockDim : dim3)
    (args : Ptr) (sharedMem : Nat) (stream : Ptr) (p : Proc W)
    (fp : Ptr) (w : W) (tr : List Event)
    (hr : resolve rt "cudaLaunchKernel" p.real_launch p.world p.trace = (fp, w, tr))
    (hfp : fp ≠ 0) :
    cudaLaunchKernel rt func gridDim blockDim args sharedMem stream p
      = some ((rt.call_launch fp func gridDim blockDim args sharedMem stream w).1,
          { p with
            real_launch := fp
            world := (rt.call_launch fp func gridDim blockDim args sharedMem stream w).2
            trace := tr ++ [
              Event.printf "[CUDA] Launch kernel %p grid(%d,%d,%d) block(%d,%d,%d)\n"
                [Arg.ptr func, Arg.uint gridDim.x, Arg.uint gridDim.y, Arg.uint gridDim.z,
                 Arg.uint blockDim.x, Arg.uint blockDim.y, Arg.uint blockDim.z],
              Event.fflush,
              Event.call_launch fp func gridDim blockDim args sharedMem stream] }) := by
  simp only [cudaLaunchKernel, hr, if_neg hfp]

/-- One hook call whose (possibly just resolved) pointer is not null: it returns, caches
the pointer, leaves the other slots alone, performs no lookup beyond the lazy
resolution, forwards the call exactly once and, for an allocation, reports the new
total. -/
theorem hook_step {W : Type} (rt : Runtime W) (c : Call) (p : Proc W) (fp : Ptr) (w : W)
    (tr : List Event)
    (hr : resolve rt c.kind.symbol (c.kind.slot p) p.world p.trace = (fp, w, tr))
    (hfp : fp ≠ 0) :
    ∃ e p1 evs, hook rt c p = some (e, p1) ∧ c.kind.slot p1 = fp ∧
      (∀ k, k ≠ c.kind → k.slot p1 = k.slot p) ∧
      p1.trace = tr ++ evs ∧ delegations evs = [c.forwarded fp] ∧
      (∀ name, lookups name evs = 0) ∧
      p1.process_total = counter_after c p.process_total ∧
      reported_totals evs
        = (if c.kind = Hook.malloc then [p1.process_total] else []) := by
  cases c with
  | malloc ptr size =>
    simp only [Call.kind, Hook.symbol, Hook.slot] at hr
    refine ⟨_, _, _, cudaMalloc_eq rt ptr size p fp w tr hr hfp, rfl, ?_, rfl, ?_, ?_, rfl, ?_⟩
    · intro k hk; cases k <;> simp_all [Call.kind, Hook.slot]
    · simp [delegations, is_call, Call.forwarded]
    · intro name; simp [lookups]
    · simp [reported_totals, reported_total, Call.kind]
  | free ptr =>
    simp only [Call.kind, Hook.symbol, Hook.slot] at hr
    refine ⟨_, _, _, cudaFree_eq rt ptr p fp w tr hr hfp, rfl, ?_, rfl, ?_, ?_, rfl, ?_⟩
    · intro k hk; cases k <;> simp_all [Call.kind, Hook.slot]
    · simp [delegations, is_call, Call.forwarded]
    · intro name; simp [lookups]
    · simp [reported_totals, reported_total, Call.kind]
  | launch func g b args sh st =>
    simp only [Call.kind, Hook.symbol, Hook.slot] at hr
    refine ⟨_, _, _, cudaLaunchKernel_eq rt func g b args sh st p fp w tr hr hfp, rfl, ?_, rfl,
      ?_, ?_, rfl, ?_⟩
    · intro k hk; cases k <;> simp_all [Call.kind, Hook.slot]
    · simp [delegations, is_call, Call.forwarded]
    · intro name; simp [lookups]
    · simp [reported_totals, reported_total, Call.kind]

/-- A sequence of calls to one hook whose slot already holds a non-null pointer: every
call returns and is forwarded through that pointer, and no lookup is made. -/
theorem run_cached {W : Type} (rt : Runtime W) (k : Hook) (fp : Ptr) (hfp : fp ≠ 0) :
    ∀ (calls : List Call) (p : Proc W), (∀ c ∈ calls, c.kind = k) → k.slot p = fp →
      ∃ p1, run rt calls p = some p1 ∧ k.slot p1 = fp ∧
        delegations p1.trace = delegations p.trace ++ calls.map (Call.forwarded fp) ∧
        (∀ name, lookups name p1.trace = lookups name p.trace) ∧
        p1.process_total = counter_run calls p.process_total ∧
        reported_totals p1.trace
          = reported_totals p.trace ++ totals_run calls p.process_total ∧
        p.trace <+: p1.trace := by
  intro calls
  induction calls with
  | nil =>
    intro p _ hs
    exact ⟨p, rfl, hs, by simp, by simp, rfl, by simp [totals_run], List.prefix_refl _⟩
  | cons c cs ih =>
    intro p hk hs
    have hck : c.kind = k := hk c (List.mem_cons_self _ _)
    have hr : resolve rt c.kind.symbol (c.kind.slot p) p.world p.trace
        = (fp, p.world, p.trace) := by
      rw [hck, hs]; exact resolve_of_ne_zero rt _ fp _ _ hfp
    obtain ⟨e, p1, evs, hh, hslot, _, htr, hdel, hlook, htot, hrep⟩ :=
      hook_step rt c p fp p.world p.trace hr hfp
    rw [hck] at hslot
    obtain ⟨p2, hrun, hslot2, hdel2, hlook2, htot2, hrep2, hpre2⟩ :=
      ih p1 (fun c1 hc1 => hk c1 (List.mem_cons_of_mem _ hc1)) hslot
    refine ⟨p2, ?_, hslot2, ?_, ?_, ?_, ?_, ?_⟩
    · simp [run, hh, hrun]
    · rw [hdel2, htr, delegations_append, hdel]; simp
    · intro name; rw [hlook2, htr, lookups_append, hlook]; simp
    · rw [htot2, htot]; rfl
    · rw [hrep2, htr, reported_totals_append, hrep, htot]; simp [totals_run]
    · exact List.IsPrefix.trans (htr ▸ List.prefix_append _ _) hpre2

/-- A non-empty sequence of calls to one hook from the load-time state, the first
lookup finding the symbol: exactly one lookup happens, first of all, and every call is
forwarded through the pointer it returned. -/
theorem run_from_init {W : Type} (rt : Runtime W) (k : Hook) (w0 : W)
    (hfound : (rt.dlsym k.symbol w0).1 ≠ 0) (c : Call) (cs : List Call)
    (hk : ∀ c1 ∈ c :: cs, c1.kind = k) :
    ∃ p1, run rt (c :: cs) (Proc.init w0) = some p1 ∧
      k.slot p1 = (rt.dlsym k.symbol w0).1 ∧
      p1.trace.head? = some (Event.dlsym k.symbol) ∧
      (∀ name, lookups name p1.trace = if name = k.symbol then 1 else 0) ∧
      delegations p1.trace = (c :: cs).map (Call.forwarded (rt.dlsym k.symbol w0).1) ∧
      p1.process_total = counter_run (c :: cs) 0 ∧
      reported_totals p1.trace = totals_run (c :: cs) 0 := by
  have hck : c.kind = k := hk c (List.mem_cons_self _ _)
  have hs0 : c.kind.slot (Proc.init w0) = 0 := by cases c <;> rfl
  have hr : resolve rt c.kind.symbol (c.kind.slot (Proc.init w0)) (Proc.init w0).world
      (Proc.init w0).trace
      = ((rt.dlsym k.symbol w0).1, (rt.dlsym k.symbol w0).2, [] ++ [Event.dlsym k.symbol]) := by
    rw [hs0, hck]; exact resolve_zero rt _ _ _
  obtain ⟨e, p1, evs, hh, hslot, _, htr, hdel, hlook, htot, hrep⟩ :=
    hook_step rt c (Proc.init w0) _ _ _ hr hfound
  rw [hck] at hslot
  obtain ⟨p2, hrun, hslot2, hdel2, hlook2, htot2, hrep2, hpre2⟩ :=
    run_cached rt k _ hfound cs p1 (fun c1 hc1 => hk c1 (List.mem_cons_of_mem _ hc1)) hslot
  have hhead : ∃ t, p2.trace = Event.dlsym k.symbol :: t := by
    obtain ⟨t, ht⟩ := hpre2
    exact ⟨evs ++ t, by rw [← ht, htr]; simp⟩
  refine ⟨p2, ?_, hslot2, ?_, ?_, ?_, ?_, ?_⟩
  · simp [run, hh, hrun]
  · obtain ⟨t, ht⟩ := hhead; simp [ht]
  · intro name
    rw [hlook2, htr, lookups_append, hlook]
    by_cases hn : name = k.symbol
    · simp [lookups, hn]
    · have hn1 : ¬ k.symbol = name := fun h => hn h.symm
      simp [lookups, hn, hn1]
  · rw [hdel2, htr, delegations_append, hdel]; simp [delegations, is_call]
  · rw [htot2, htot]; rfl
  · rw [hrep2, htr, reported_totals_append, hrep, htot]
    simp [totals_run, reported_totals, reported_total, Proc.init]

theorem counter_after_lt (c : Call) (t : Nat) (ht : t < SIZE_MOD) :
    counter_after c t < SIZE_MOD := by
  cases c <;> simp only [counter_after]
  · exact Nat.mod_lt _ (by decide)
  · exact ht
  · exact ht

/-- Starting below `2 ^ 64`, the counter after a sequence of calls is the sum of the
allocated sizes modulo `2 ^ 64`. -/
theorem counter_run_eq : ∀ (calls : List Call) (t : Nat), t < SIZE_MOD →
    counter_run calls t = (t + alloc_sum calls) % SIZE_MOD := by
  intro calls
  induction calls with
  | nil => intro t ht; simp [counter_run, alloc_sum, Nat.mod_eq_of_lt ht]
  | cons c cs ih =>
    intro t ht
    have h1 : counter_run (c :: cs) t = counter_run cs (counter_after c t) := rfl
    rw [h1, ih _ (counter_after_lt c t ht)]
    cases c with
    | malloc ptr size => simp only [counter_after, alloc_sum, Nat.mod_add_mod, Nat.add_assoc]
    | free ptr => simp only [counter_after, alloc_sum]
    | launch f g b a s st => simp only [counter_after, alloc_sum]

/-- The allocation calls with the given `(ptr, size)` arguments. -/
theorem alloc_sum_mallocs (args : List (Ptr × Nat)) :
    alloc_sum (args.map (fun a => Call.malloc a.1 a.2)) = (args.map Prod.snd).sum := by
  induction args with
  | nil => rfl
  | cons a as ih => simp [alloc_sum, ih]

/-- In a run of allocations only, every call reports, and the last report is the
counter at the end. -/
theorem totals_run_mallocs : ∀ (args : List (Ptr × Nat)) (t : Nat),
    (totals_run (args.map (fun a => Call.malloc a.1 a.2)) t).length = args.length ∧
    (args ≠ [] →
      (totals_run (args.map (fun a => Call.malloc a.1 a.2)) t).getLast?
        = some (counter_run (args.map (fun a => Call.malloc a.1 a.2)) t)) := by
  intro args
  induction args with
  | nil => intro t; simp [totals_run]
  | cons a as ih =>
    intro t
    obtain ⟨hlen, hlast⟩ := ih (counter_after (Call.malloc a.1 a.2) t)
    constructor
    · simp [totals_run, Call.kind, hlen]
    · intro _
      by_cases has : as = []
      · subst has; simp [totals_run, Call.kind, counter_run]
      · have h2 := hlast has
        have hne : totals_run (as.map (fun a => Call.malloc a.1 a.2))
            (counter_after (Call.malloc a.1 a.2) t) ≠ [] := by
          intro h0; rw [h0] at h2; simp at h2
        simp only [List.map_cons, totals_run, Call.kind, if_true, List.singleton_append]
        rw [List.getLast?_cons, h2]
        rfl

theorem resolve_ne_zero {W : Type} (rt : Runtime W) (hres : ∀ name w, (rt.dlsym name w).1 ≠ 0)
    (name : String) (slot : Ptr) (w : W) (trace : List Event) :
    (resolve rt name slot w trace).1 ≠ 0 := by
  by_cases h : slot = 0
  · simp only [resolve, h, if_true]; exact hres name w
  · simp only [resolve, h, if_false]; exact h

/-- With a resolver that finds every symbol, any sequence of host calls returns, and the
counter evolves by `counter_run`. -/
theorem run_total {W : Type} (rt : Runtime W) (hres : ∀ name w, (rt.dlsym name w).1 ≠ 0) :
    ∀ (calls : List Call) (p : Proc W),
      ∃ p1, run rt calls p = some p1 ∧
        p1.process_total = counter_run calls p.process_total := by
  intro calls
  induction calls with
  | nil => intro p; exact ⟨p, rfl, rfl⟩
  | cons c cs ih =>
    intro p
    obtain ⟨e, p1, evs, hh, _, _, _, _, _, htot, _⟩ :=
      hook_step rt c p _ _ _ rfl (resolve_ne_zero rt hres c.kind.symbol (c.kind.slot p) p.world p.trace)
    obtain ⟨p2, hrun, htot2⟩ := ih p1
    exact ⟨p2, by simp [run, hh, hrun], by rw [htot2, htot]; rfl⟩

theorem alloc_sum_append (l1 l2 : List Call) :
    alloc_sum (l1 ++ l2) = alloc_sum l1 + alloc_sum l2 := by
  induction l1 with
  | nil => simp [alloc_sum]
  | cons c cs ih => cases c <;> simp [alloc_sum, ih, Nat.add_assoc]

theorem symbol_injective (k1 k2 : Hook) (h : k1.symbol = k2.symbol) : k1 = k2 := by
  cases k1 <;> cases k2 <;> first | rfl | (exfalso; revert h; decide)

/-! ## Transparency of the hooks -/

/-- C2: for every real allocator (the function `rt.call_malloc fp` behind the resolved,
non-null pointer `fp`), every pointer-slot argument `ptr`, every `size` and every prior
state `p` (any counter value), the `cudaMalloc` hook returns exactly the status of
`real_malloc(ptr, size)`; after the lazy resolution its trace continues with that single
delegated call, carrying the same `ptr` and `size`, followed by the report and the
flush; and the world it leaves, which holds whatever the allocator wrote through `ptr`,
is exactly the world that one call produced. -/
theorem cudaMalloc_transparent {W : Type} (rt : Runtime W) (ptr : Ptr) (size : Nat)
    (p : Proc W) (fp : Ptr) (w : W) (tr : List Event)
    (hr : resolve rt "cudaMalloc" p.real_malloc p.world p.trace = (fp, w, tr))
    (hfp : fp ≠ 0) :
    ∃ p1 line, cudaMalloc rt ptr size p = some ((rt.call_malloc fp ptr size w).1, p1) ∧
      p1.world = (rt.call_malloc fp ptr size w).2 ∧
      p1.trace = tr ++ [Event.call_malloc fp ptr size, line, Event.fflush] ∧
      is_call line = false ∧
      delegations p1.trace = delegations p.trace ++ [Event.call_malloc fp ptr size] := by
  refine ⟨_, _, cudaMalloc_eq rt ptr size p fp w tr hr hfp, rfl, rfl, rfl, ?_⟩
  have htr : tr = p.trace ++ (if p.real_malloc = 0 then [Event.dlsym "cudaMalloc"] else []) := by
    have h := resolve_trace rt "cudaMalloc" p.real_malloc p.world p.trace
    rw [hr] at h; exact h
  subst htr
  by_cases h0 : p.real_malloc = 0 <;> simp [delegations, is_call, h0]

theorem cudaMalloc_transparent_witness :
    ∃ p1 line, cudaMalloc recording_stub 100 5 (Proc.init []) = some (2, p1) ∧
      p1.world = [(100, 5)] ∧
      p1.trace = [Event.dlsym "cudaMalloc"] ++ [Event.call_malloc 4096 100 5, line, Event.fflush] ∧
      is_call line = false ∧
      delegations p1.trace = delegations [] ++ [Event.call_malloc 4096 100 5] :=
  cudaMalloc_transparent recording_stub 100 5 (Proc.init []) 4096 [] [Event.dlsym "cudaMalloc"]
    rfl (by decide)

/-- C3: for every real `free` and every real `launchKernel` (the functions behind the
resolved, non-null pointers), every input and every prior state, the `cudaFree` hook
makes exactly one delegated call, `real_free(ptr)` with the pointer it received, and
returns its status unchanged, leaving the counter alone; the `cudaLaunchKernel` hook
makes exactly one delegated call, with the six arguments `func, gridDim, blockDim,
args, sharedMem, stream` in that order and unchanged, and returns its status
unchanged; the launch configuration line (and its flush) precede the delegated call. -/
theorem cudaFree_cudaLaunchKernel_transparent {W : Type} (rt : Runtime W) (p : Proc W)
    (ptr : Ptr) (fp : Ptr) (w : W) (tr : List Event)
    (hr : resolve rt "cudaFree" p.real_free p.world p.trace = (fp, w, tr)) (hfp : fp ≠ 0)
    (func : Ptr) (gridDim blockDim : dim3) (args : Ptr) (sharedMem : Nat) (stream : Ptr)
    (fp1 : Ptr) (w1 : W) (tr1 : List Event)
    (hr1 : resolve rt "cudaLaunchKernel" p.real_launch p.world p.trace = (fp1, w1, tr1))
    (hfp1 : fp1 ≠ 0) :
    (∃ p1, cudaFree rt ptr p = some ((rt.call_free fp ptr w).1, p1) ∧
      p1.world = (rt.call_free fp ptr w).2 ∧
      p1.trace = tr ++ [Event.fflush, Event.call_free fp ptr] ∧
      p1.process_total = p.process_total ∧
      delegations p1.trace = delegations p.trace ++ [Event.call_free fp ptr]) ∧
    (∃ p1, cudaLaunchKernel rt func gridDim blockDim args sharedMem stream p
        = some ((rt.call_launch fp1 func gridDim blockDim args sharedMem stream w1).1, p1) ∧
      p1.world = (rt.call_launch fp1 func gridDim blockDim args sharedMem stream w1).2 ∧
      p1.trace = tr1 ++ [
        Event.printf "[CUDA] Launch kernel %p grid(%d,%d,%d) block(%d,%d,%d)\n"
          [Arg.ptr func, Arg.uint gridDim.x, Arg.uint gridDim.y, Arg.uint gridDim.z,
           Arg.uint blockDim.x, Arg.uint blockDim.y, Arg.uint blockDim.z],
        Event.fflush,
        Event.call_launch fp1 func gridDim blockDim args sharedMem stream] ∧
      p1.process_total = p.process_total ∧
      delegations p1.trace
        = delegations p.trace
          ++ [Event.call_launch fp1 func gridDim blockDim args sharedMem stream]) := by
  constructor
  · refine ⟨_, cudaFree_eq rt ptr p fp w tr hr hfp, rfl, rfl, rfl, ?_⟩
    have htr : tr = p.trace ++ (if p.real_free = 0 then [Event.dlsym "cudaFree"] else []) := by
      have h := resolve_trace rt "cudaFree" p.real_free p.world p.trace
      rw [hr] at h; exact h
    subst htr
    by_cases h0 : p.real_free = 0 <;> simp [delegations, is_call, h0]
  · refine ⟨_, cudaLaunchKernel_eq rt func gridDim blockDim args sharedMem stream p fp1 w1 tr1
      hr1 hfp1, rfl, rfl, rfl, ?_⟩
    have htr : tr1 = p.trace
        ++ (if p.real_launch = 0 then [Event.dlsym "cudaLaunchKernel"] else []) := by
      have h := resolve_trace rt "cudaLaunchKernel" p.real_launch p.world p.trace
      rw [hr1] at h; exact h
    subst htr
    by_cases h0 : p.real_launch = 0 <;> simp [delegations, is_call, h0]

theorem cudaFree_cudaLaunchKernel_transparent_witness :
    (∃ p1, cudaFree recording_stub 100 (Proc.init []) = some (0, p1) ∧
      p1.world = [(100, 0)] ∧
      p1.trace = [Event.dlsym "cudaFree"] ++ [Event.fflush, Event.call_free 4096 100] ∧
      p1.process_total = 0 ∧
      delegations p1.trace = delegations [] ++ [Event.call_free 4096 100]) ∧
    (∃ p1, cudaLaunchKernel recording_stub 7 ⟨1, 2, 3⟩ ⟨4, 5, 6⟩ 8 9 10 (Proc.init [])
        = some (0, p1) ∧
      p1.world = [(7, 9)] ∧
      p1.trace = [Event.dlsym "cudaLaunchKernel"] ++ [
        Event.printf "[CUDA] Launch kernel %p grid(%d,%d,%d) block(%d,%d,%d)\n"
          [Arg.ptr 7, Arg.uint 1, Arg.uint 2, Arg.uint 3, Arg.uint 4, Arg.uint 5, Arg.uint 6],
        Event.fflush,
        Event.call_launch 4096 7 ⟨1, 2, 3⟩ ⟨4, 5, 6⟩ 8 9 10] ∧
      p1.process_total = 0 ∧
      delegations p1.trace
        = delegations [] ++ [Event.call_launch 4096 7 ⟨1, 2, 3⟩ ⟨4, 5, 6⟩ 8 9 10]) :=
  cudaFree_cudaLaunchKernel_transparent recording_stub (Proc.init []) 100 4096 []
    [Event.dlsym "cudaFree"] rfl (by decide) 7 ⟨1, 2, 3⟩ ⟨4, 5, 6⟩ 8 9 10 4096 []
    [Event.dlsym "cudaLaunchKernel"] rfl (by decide)

/-- C6: for every size and every status `err` the real allocator returns, success or
not, the `cudaMalloc` hook returns that status, adds `size` to the cumulative counter
(in `size_t` arithmetic, so exactly `process_total + size` whenever that fits) and
reports the updated total: neither the new counter nor the report depends on `err`. -/
theorem cudaMalloc_counts_whatever_the_status {W : Type} (rt : Runtime W) (ptr : Ptr)
    (size : Nat) (p : Proc W) (fp : Ptr) (w : W) (tr : List Event)
    (hr : resolve rt "cudaMalloc" p.real_malloc p.world p.trace = (fp, w, tr))
    (hfp : fp ≠ 0) (err : cudaError_t) (herr : (rt.call_malloc fp ptr size w).1 = err) :
    ∃ p1, cudaMalloc rt ptr size p = some (err, p1) ∧
      p1.process_total = (p.process_total + size) % SIZE_MOD ∧
      (p.process_total + size < SIZE_MOD → p1.process_total = p.process_total + size) ∧
      reported_totals p1.trace = reported_totals p.trace ++ [p1.process_total] := by
  refine ⟨_, herr ▸ cudaMalloc_eq rt ptr size p fp w tr hr hfp, rfl, ?_, ?_⟩
  · intro h; exact Nat.mod_eq_of_lt h
  · have htr : tr = p.trace ++ (if p.real_malloc = 0 then [Event.dlsym "cudaMalloc"] else []) := by
      have h := resolve_trace rt "cudaMalloc" p.real_malloc p.world p.trace
      rw [hr] at h; exact h
    subst htr
    by_cases h0 : p.real_malloc = 0 <;> simp [reported_totals, reported_total, h0]

theorem cudaMalloc_counts_whatever_the_status_witness :
    ∃ p1, cudaMalloc recording_stub 100 5 (Proc.init []) = some (2, p1) ∧
      p1.process_total = (0 + 5) % SIZE_MOD ∧
      (0 + 5 < SIZE_MOD → p1.process_total = 0 + 5) ∧
      reported_totals p1.trace = reported_totals [] ++ [p1.process_total] :=
  cudaMalloc_counts_whatever_the_status recording_stub 100 5 (Proc.init []) 4096 []
    [Event.dlsym "cudaMalloc"] rfl (by decide) 2 rfl

/-! ## The cumulative counter along sequences of calls -/

/-- C1 (as stated, refuted): with the succeeding stub, after `cudaMalloc` calls of sizes
`2 ^ 64 - 1` and `1` the second call reports a total of `0` bytes, not the sum
`2 ^ 64` of the two sizes. -/
theorem reported_total_wraps :
    (run succeeding_stub [Call.malloc 0 18446744073709551615, Call.malloc 0 1]
        (Proc.init ())).map (fun p => (reported_totals p.trace).getLast?) = some (some 0) ∧
    (run succeeding_stub [Call.malloc 0 18446744073709551615, Call.malloc 0 1]
        (Proc.init ())).map (fun p => (reported_totals p.trace).getLast?)
      ≠ some (some (18446744073709551615 + 1)) := by
  constructor <;> decide

/-- C1 (amended): for every real allocator, every `N ≥ 1` and every sequence of
`(ptr, size)` arguments passed to the `cudaMalloc` hook on one thread from the load-time
state (the lookup finding the symbol), all `N` calls return, each reports once, and the
total reported by the `N`-th call, which is also the counter, is
`(s1 + ... + sN) mod 2 ^ 64`; it equals `s1 + ... + sN` whenever that sum is below
`2 ^ 64`. For the sizes `1073741824, 2147483648` the last line printed carries the
total `3221225472` and the GiB value `3`, which `%.3f` renders as `3.000`. -/
theorem reported_total_is_sum_mod {W : Type} (rt : Runtime W) (w0 : W)
    (hfound : (rt.dlsym "cudaMalloc" w0).1 ≠ 0) (args : List (Ptr × Nat)) (hN : args ≠ []) :
    (∃ p1, run rt (args.map (fun a => Call.malloc a.1 a.2)) (Proc.init w0) = some p1 ∧
      (reported_totals p1.trace).length = args.length ∧
      (reported_totals p1.trace).getLast? = some ((args.map Prod.snd).sum % SIZE_MOD) ∧
      p1.process_total = (args.map Prod.snd).sum % SIZE_MOD ∧
      ((args.map Prod.snd).sum < SIZE_MOD →
        (reported_totals p1.trace).getLast? = some (args.map Prod.snd).sum)) ∧
    (∀ ptr1 ptr2, ∃ p1,
      run rt [Call.malloc ptr1 1073741824, Call.malloc ptr2 2147483648] (Proc.init w0)
        = some p1 ∧
      reported_totals p1.trace = [1073741824, 3221225472] ∧
      [Event.printf "[PID %d] total allocated: %.3f GB (%zu bytes)\n"
        [Arg.int (rt.getpid p1.world), Arg.double 3, Arg.size 3221225472], Event.fflush]
        <:+ p1.trace ∧
      gb 3221225472 = 3 ∧ fmt_3f (gb 3221225472) = "3.000") := by
  have hgb : gb 3221225472 = 3 := by norm_num [gb, to_double]
  constructor
  · obtain ⟨a, as, rfl⟩ := List.exists_cons_of_ne_nil hN
    obtain ⟨p1, hrun, _, _, _, _, htot, hrep⟩ :=
      run_from_init rt Hook.malloc w0 hfound (Call.malloc a.1 a.2)
        (as.map (fun a => Call.malloc a.1 a.2))
        (by intro c hc
            rcases List.mem_cons.mp hc with h | h
            · rw [h]; rfl
            · obtain ⟨b, _, hb⟩ := List.mem_map.mp h
              rw [← hb]; rfl)
    have hcr : counter_run ((a :: as).map (fun a => Call.malloc a.1 a.2)) 0
        = ((a :: as).map Prod.snd).sum % SIZE_MOD := by
      rw [counter_run_eq _ 0 (by decide), alloc_sum_mallocs]; simp
    obtain ⟨hlen, hlast⟩ := totals_run_mallocs (a :: as) 0
    have hlast1 := hlast (List.cons_ne_nil _ _)
    rw [List.map_cons] at hcr hlen hlast1
    rw [List.map_cons]
    refine ⟨p1, hrun, ?_, ?_, ?_, ?_⟩
    · rw [hrep, hlen]
    · rw [hrep, hlast1, hcr]
    · rw [htot, hcr]
    · intro hlt
      rw [hrep, hlast1, hcr, Nat.mod_eq_of_lt (by simpa using hlt)]
  · intro ptr1 ptr2
    have h1 := cudaMalloc_eq rt ptr1 1073741824 (Proc.init w0) _ _ _
      (resolve_zero rt "cudaMalloc" w0 []) hfound
    have e1 : (((Proc.init w0).process_total + 1073741824) % SIZE_MOD + 2147483648) % SIZE_MOD
        = 3221225472 := by norm_num [Proc.init, SIZE_MOD]
    refine ⟨?p1, ?hrun, ?hrep, ?hline, hgb, ?hfmt⟩
    case hrun =>
      simp only [run, hook, h1]
      rw [cudaMalloc_eq rt ptr2 2147483648 _ _ _ _ (resolve_of_ne_zero rt _ _ _ _ hfound) hfound]
      exact rfl
    case hrep => simp [reported_totals, reported_total, Proc.init, SIZE_MOD]
    case hline =>
      simp only [e1, hgb]
      exact ⟨_ ++ [_], List.append_assoc _ [_] [_, _]⟩
    case hfmt => rw [hgb]; decide

theorem reported_total_is_sum_mod_witness :
    (∃ p1, run succeeding_stub
        ([(0, 1073741824), (8, 2147483648)].map (fun a => Call.malloc a.1 a.2)) (Proc.init ())
          = some p1 ∧
      (reported_totals p1.trace).length = [((0 : Ptr), 1073741824), (8, 2147483648)].length ∧
      (reported_totals p1.trace).getLast?
        = some (([((0 : Ptr), 1073741824), (8, 2147483648)].map Prod.snd).sum % SIZE_MOD) ∧
      p1.process_total
        = ([((0 : Ptr), 1073741824), (8, 2147483648)].map Prod.snd).sum % SIZE_MOD ∧
      (([((0 : Ptr), 1073741824), (8, 2147483648)].map Prod.snd).sum < SIZE_MOD →
        (reported_totals p1.trace).getLast?
          = some ([((0 : Ptr), 1073741824), (8, 2147483648)].map Prod.snd).sum)) ∧
    (∀ ptr1 ptr2, ∃ p1,
      run succeeding_stub [Call.malloc ptr1 1073741824, Call.malloc ptr2 2147483648]
        (Proc.init ()) = some p1 ∧
      reported_totals p1.trace = [1073741824, 3221225472] ∧
      [Event.printf "[PID %d] total allocated: %.3f GB (%zu bytes)\n"
        [Arg.int 4242, Arg.double 3, Arg.size 3221225472], Event.fflush] <:+ p1.trace ∧
      gb 3221225472 = 3 ∧ fmt_3f (gb 3221225472) = "3.000") :=
  reported_total_is_sum_mod succeeding_stub () (by decide) [(0, 1073741824), (8, 2147483648)]
    (by decide)

/-- C4: for each hook `k` (`cudaMalloc`, `cudaFree` or `cudaLaunchKernel`), every
`N ≥ 1` and every sequence of `N` calls to that hook on one thread from the load-time
state, with a resolver whose lookup finds the symbol (non-null result): all calls
return; the trace holds exactly one `dlsym` lookup, of that hook's symbol, and it is the
very first action of the first call; the `N` delegated calls are the host's calls in
order, each through the pointer that lookup returned, which is also what the slot holds
at the end. Moreover in any state whose slot is populated, any hook call that returns
leaves the slot unchanged and adds no lookup of its symbol. -/
theorem resolver_queried_once {W : Type} (rt : Runtime W) (k : Hook) (w0 : W)
    (hfound : (rt.dlsym k.symbol w0).1 ≠ 0) (calls : List Call) (hN : calls ≠ [])
    (hk : ∀ c ∈ calls, c.kind = k) :
    (∃ p1, run rt calls (Proc.init w0) = some p1 ∧
      (∀ name, lookups name p1.trace = if name = k.symbol then 1 else 0) ∧
      p1.trace.head? = some (Event.dlsym k.symbol) ∧
      delegations p1.trace = calls.map (Call.forwarded (rt.dlsym k.symbol w0).1) ∧
      k.slot p1 = (rt.dlsym k.symbol w0).1) ∧
    (∀ (p : Proc W) (c : Call) (e : cudaError_t) (p1 : Proc W),
      k.slot p ≠ 0 → hook rt c p = some (e, p1) →
        k.slot p1 = k.slot p ∧ lookups k.symbol p1.trace = lookups k.symbol p.trace) := by
  constructor
  · obtain ⟨c, cs, rfl⟩ := List.exists_cons_of_ne_nil hN
    obtain ⟨p1, hrun, hslot, hhead, hlook, hdel, _, _⟩ := run_from_init rt k w0 hfound c cs hk
    exact ⟨p1, hrun, hlook, hhead, hdel, hslot⟩
  · intro p c e p1 hslot hh
    have hne : (resolve rt c.kind.symbol (c.kind.slot p) p.world p.trace).1 ≠ 0 := by
      intro h0
      cases c <;> simp [hook, cudaMalloc, cudaFree, cudaLaunchKernel, Call.kind, Hook.symbol,
        Hook.slot] at h0 hh <;> exact hh.1 h0
    have htrace := resolve_trace rt c.kind.symbol (c.kind.slot p) p.world p.trace
    generalize hr : resolve rt c.kind.symbol (c.kind.slot p) p.world p.trace = r at hne htrace
    obtain ⟨fp, w, tr⟩ := r
    obtain ⟨e2, p2, evs, hh2, hs2, hother, htr, _, hlook, _, _⟩ :=
      hook_step rt c p fp w tr hr hne
    rw [hh] at hh2
    obtain ⟨-, rfl⟩ : e = e2 ∧ p1 = p2 := by simpa using hh2
    simp only at htrace
    by_cases hck : k = c.kind
    · subst hck
      rw [resolve_of_ne_zero rt c.kind.symbol _ p.world p.trace hslot] at hr
      obtain ⟨rfl, -, rfl⟩ : c.kind.slot p = fp ∧ p.world = w ∧ p.trace = tr := by
        simpa using hr
      exact ⟨hs2, by rw [htr, lookups_append, hlook]; rfl⟩
    · refine ⟨hother k hck, ?_⟩
      rw [htr, lookups_append, hlook, htrace, lookups_append]
      have hsym : ¬ c.kind.symbol = k.symbol := fun h => hck (symbol_injective _ _ h).symm
      by_cases h0 : c.kind.slot p = 0 <;> simp [lookups, h0, hsym]

theorem resolver_queried_once_witness :
    (∃ p1, run recording_stub [Call.launch 7 ⟨1, 1, 1⟩ ⟨32, 1, 1⟩ 8 0 0,
        Call.launch 9 ⟨2, 1, 1⟩ ⟨64, 1, 1⟩ 8 0 0] (Proc.init []) = some p1 ∧
      (∀ name, lookups name p1.trace = if name = Hook.launch.symbol then 1 else 0) ∧
      p1.trace.head? = some (Event.dlsym Hook.launch.symbol) ∧
      delegations p1.trace
        = [Call.launch 7 ⟨1, 1, 1⟩ ⟨32, 1, 1⟩ 8 0 0,
            Call.launch 9 ⟨2, 1, 1⟩ ⟨64, 1, 1⟩ 8 0 0].map (Call.forwarded 4096) ∧
      Hook.launch.slot p1 = 4096) ∧
    (∀ (p : Proc (List (Ptr × Nat))) (c : Call) (e : cudaError_t) (p1 : Proc (List (Ptr × Nat))),
      Hook.launch.slot p ≠ 0 → hook recording_stub c p = some (e, p1) →
        Hook.launch.slot p1 = Hook.launch.slot p ∧
        lookups Hook.launch.symbol p1.trace = lookups Hook.launch.symbol p.trace) :=
  resolver_queried_once recording_stub Hook.launch [] (by decide)
    [Call.launch 7 ⟨1, 1, 1⟩ ⟨32, 1, 1⟩ 8 0 0, Call.launch 9 ⟨2, 1, 1⟩ ⟨64, 1, 1⟩ 8 0 0]
    (by decide) (by decide)

/-- C5 (as stated, refuted): with the succeeding stub, after an allocation of
`2 ^ 64 - 1` bytes the counter is `2 ^ 64 - 1`; a further allocation of `1` byte leaves
it at `0`, strictly below its value before the call. -/
theorem counter_decreases_on_wraparound :
    (run succeeding_stub [Call.malloc 0 18446744073709551615] (Proc.init ())).map
        (fun p => p.process_total) = some 18446744073709551615 ∧
    (run succeeding_stub [Call.malloc 0 18446744073709551615, Call.malloc 0 1]
        (Proc.init ())).map (fun p => p.process_total) = some 0 ∧
    ¬ (18446744073709551615 ≤ 0) := by
  refine ⟨?_, ?_, ?_⟩ <;> decide

/-- C5 (amended): from the load-time state (counter `0`) and with a resolver that finds
every symbol, after any sequence `calls` of hook calls the next call `c` returns and
changes the counter as follows: `cudaFree` and `cudaLaunchKernel` leave it exactly
unchanged; `cudaMalloc` with `size` replaces it by `(counter + size) mod 2 ^ 64`; hence
the counter after the call is at least its value before the call as long as the sizes
allocated so far, this call included, sum to less than `2 ^ 64`. -/
theorem counter_monotone_below_wraparound {W : Type} (rt : Runtime W)
    (hres : ∀ name w, (rt.dlsym name w).1 ≠ 0) (w0 : W) (calls : List Call) (c : Call) :
    ∃ p e p1, run rt calls (Proc.init w0) = some p ∧ hook rt c p = some (e, p1) ∧
      p.process_total = alloc_sum calls % SIZE_MOD ∧
      (c.kind ≠ Hook.malloc → p1.process_total = p.process_total) ∧
      (∀ ptr size, c = Call.malloc ptr size →
        p1.process_total = (p.process_total + size) % SIZE_MOD) ∧
      (alloc_sum (calls ++ [c]) < SIZE_MOD → p.process_total ≤ p1.process_total) := by
  obtain ⟨p, hrun, htot⟩ := run_total rt hres calls (Proc.init w0)
  obtain ⟨e, p1, evs, hh, _, _, _, _, _, htot1, _⟩ :=
    hook_step rt c p _ _ _ rfl (resolve_ne_zero rt hres c.kind.symbol (c.kind.slot p) p.world p.trace)
  have hp : p.process_total = alloc_sum calls % SIZE_MOD := by
    have h0 : (Proc.init w0).process_total < SIZE_MOD := by
      show 0 < SIZE_MOD; decide
    rw [htot, counter_run_eq _ _ h0]
    simp [Proc.init]
  refine ⟨p, e, p1, hrun, hh, hp, ?_, ?_, ?_⟩
  · intro hc; rw [htot1]; cases c <;> simp_all [counter_after, Call.kind]
  · intro ptr size hc; rw [htot1, hc]; rfl
  · intro hlt
    rw [alloc_sum_append] at hlt
    have hlt1 : alloc_sum calls < SIZE_MOD := by omega
    rw [htot1, hp, Nat.mod_eq_of_lt hlt1]
    cases c with
    | malloc ptr size =>
      simp only [counter_after]
      have : alloc_sum [Call.malloc ptr size] = size := by simp [alloc_sum]
      rw [this] at hlt
      rw [Nat.mod_eq_of_lt hlt]; omega
    | free ptr => simp [counter_after]
    | launch f g b a s st => simp [counter_after]

theorem counter_monotone_below_wraparound_witness :
    ∃ p e p1, run succeeding_stub [Call.malloc 0 10, Call.free 0] (Proc.init ()) = some p ∧
      hook succeeding_stub (Call.malloc 8 20) p = some (e, p1) ∧
      p.process_total = alloc_sum [Call.malloc 0 10, Call.free 0] % SIZE_MOD ∧
      ((Call.malloc 8 20).kind ≠ Hook.malloc → p1.process_total = p.process_total) ∧
      (∀ ptr size, Call.malloc 8 20 = Call.malloc ptr size →
        p1.process_total = (p.process_total + size) % SIZE_MOD) ∧
      (alloc_sum ([Call.malloc 0 10, Call.free 0] ++ [Call.malloc 8 20]) < SIZE_MOD →
        p.process_total ≤ p1.process_total) :=
  counter_monotone_below_wraparound succeeding_stub
    (fun _ _ => (by decide : (4096 : Nat) ≠ 0)) ()
    [Call.malloc 0 10, Call.free 0] (Call.malloc 8 20)

/-! ## Properties of the sampler -/

/-- One `fgets` call splits the stream: buffer followed by rest is the stream. -/
theorem fgets_chars_append : ∀ (room : Nat) (s : List Char),
    (fgets_chars room s).1 ++ (fgets_chars room s).2 = s := by
  intro room
  induction room with
  | zero => intro s; rfl
  | succ k ih =>
    intro s
    cases s with
    | nil => rfl
    | cons c t =>
      by_cases hc : c = '\n'
      · simp [fgets_chars, hc]
      · simp [fgets_chars, hc, ih t]

/-- With room in the buffer, one `fgets` call consumes at least one character. -/
theorem fgets_chars_rest_length : ∀ (room : Nat) (s : List Char), 0 < room → s ≠ [] →
    (fgets_chars room s).2.length < s.length := by
  intro room
  induction room with
  | zero => intro s h; omega
  | succ k ih =>
    intro s _ hs
    cases s with
    | nil => exact absurd rfl hs
    | cons c t =>
      by_cases hc : c = '\n'
      · simp [fgets_chars, hc]
      · simp only [fgets_chars, hc, if_false, List.length_cons]
        have := congrArg List.length (fgets_chars_append k t)
        simp only [List.length_append] at this
        omega

/-- A whole line that fits the buffer is read, newline included, by one `fgets` call. -/
theorem fgets_chars_line : ∀ (l rest : List Char) (room : Nat),
    (∀ c ∈ l, c ≠ '\n') → l.length < room →
    fgets_chars room (l ++ '\n' :: rest) = (l ++ ['\n'], rest) := by
  intro l
  induction l with
  | nil =>
    intro rest room _ h
    obtain ⟨k, rfl⟩ : ∃ k, room = k + 1 := ⟨room - 1, by simp at h; omega⟩
    simp [fgets_chars]
  | cons c t ih =>
    intro rest room hnl h
    obtain ⟨k, rfl⟩ : ∃ k, room = k + 1 := ⟨room - 1, by simp at h; omega⟩
    have hc : c ≠ '\n' := hnl c (List.mem_cons_self _ _)
    have ht := ih rest k (fun d hd => hnl d (List.mem_cons_of_mem _ hd))
      (by simp at h; omega)
    simp [fgets_chars, hc, ht]

theorem fgets_of_ne_nil (n : Nat) (s : List Char) (hs : s ≠ []) :
    fgets n s = some (fgets_chars (n - 1) s) := by
  cases s with
  | nil => exact absurd rfl hs
  | cons c t => rfl

/-- A buffer without NUL is printed whole by `%s`. -/
theorem c_str_of_no_nul (buf : List Char) (h : ∀ c ∈ buf, c ≠ Char.ofNat 0) :
    c_str buf = buf := by
  unfold c_str
  rw [List.takeWhile_eq_self_iff]
  intro c hc
  simpa using h c hc

/-- The copy loop of `read_file` reproduces a NUL-free stream, given enough fuel. -/
theorem read_file_loop_eq : ∀ (fuel : Nat) (stream : List Char), stream.length ≤ fuel →
    (∀ c ∈ stream, c ≠ Char.ofNat 0) → read_file_loop fuel stream = stream := by
  intro fuel
  induction fuel with
  | zero =>
    intro stream h _
    have : stream = [] := List.length_eq_zero.mp (by omega)
    subst this; rfl
  | succ k ih =>
    intro stream h hnul
    by_cases hs : stream = []
    · subst hs; rfl
    · have happ := fgets_chars_append 255 stream
      have hlen := fgets_chars_rest_length 255 stream (by decide) hs
      have h1 : ∀ c ∈ (fgets_chars 255 stream).1, c ≠ Char.ofNat 0 := by
        intro c hc; apply hnul; rw [← happ]; exact List.mem_append_left _ hc
      have h2 : ∀ c ∈ (fgets_chars 255 stream).2, c ≠ Char.ofNat 0 := by
        intro c hc; apply hnul; rw [← happ]; exact List.mem_append_right _ hc
      simp only [read_file_loop, fgets_of_ne_nil 256 stream hs]
      rw [c_str_of_no_nul _ h1, ih _ (by omega) h2]
      exact happ

/-- C10: for every present file whose content has no NUL byte, whatever its line
lengths (lines longer than the 255-character buffer and an unterminated last line
included), the output of `read_file` is exactly the header line `== <label> ==`, then
the content character for character, then one newline. -/
theorem read_file_verbatim (fs : Files) (path : String) (label content : List Char)
    (hfile : fs path = some content) (hnul : ∀ c ∈ content, c ≠ Char.ofNat 0) :
    read_file fs path label
      = "== ".toList ++ c_str label ++ " ==\n".toList ++ content ++ "\n".toList := by
  simp only [read_file, hfile]
  rw [read_file_loop_eq _ _ (Nat.le_refl _) hnul]

theorem read_file_verbatim_witness :
    read_file long_info_files info_path "GPU Info".toList
      = "== ".toList ++ c_str "GPU Info".toList ++ " ==\n".toList ++ long_info ++ "\n".toList :=
  read_file_verbatim long_info_files info_path "GPU Info".toList long_info rfl (by decide)

/-- The body of the table loop on a buffer holding a whole line: the row of that line,
if it decodes, and nothing otherwise. -/
theorem print_line_eq (l : List Char) :
    print_line (l ++ ['\n']) = ((row_of_line l).map printf_row).getD [] := by
  unfold print_line row_of_line
  cases sscanf_line (c_str (l ++ ['\n'])) <;> rfl

/-- The table loop on a file of newline-terminated lines that fit the buffer handles the
lines one by one, given enough fuel. -/
theorem print_gpu_processes_loop_eq : ∀ (lines : List (List Char)) (fuel : Nat),
    (file_of_lines lines).length ≤ fuel →
    (∀ l ∈ lines, l.length ≤ 254 ∧ ∀ c ∈ l, c ≠ '\n') →
    print_gpu_processes_loop fuel (file_of_lines lines)
      = (lines.filterMap row_of_line).flatMap printf_row := by
  intro lines
  induction lines with
  | nil =>
    intro fuel _ _
    cases fuel <;> rfl
  | cons l ls ih =>
    intro fuel hfuel hshort
    have hfile : file_of_lines (l :: ls) = l ++ '\n' :: file_of_lines ls := by
      simp [file_of_lines]
    rw [hfile] at hfuel ⊢
    obtain ⟨k, rfl⟩ : ∃ k, fuel = k + 1 := ⟨fuel - 1, by simp at hfuel; omega⟩
    obtain ⟨hlen, hnl⟩ := hshort l (List.mem_cons_self _ _)
    have hne : l ++ '\n' :: file_of_lines ls ≠ [] := by simp
    simp only [print_gpu_processes_loop, fgets_of_ne_nil 256 _ hne]
    rw [fgets_chars_line l (file_of_lines ls) 255 hnl (by omega)]
    simp only []
    rw [ih k (by simp at hfuel; omega) (fun m hm => hshort m (List.mem_cons_of_mem _ hm)),
      print_line_eq]
    cases hrow : row_of_line l <;> simp [List.filterMap_cons, hrow]

/-- The sample table renders as two rows under the header; the line without a memory
field is skipped. -/
theorem sample_table_output :
    print_gpu_processes sample_files
      = ("PID     Type   GPU Memory (MiB)\n--------------------------------\n"
          ++ "1234    C      512\n4321    G      64\n").toList := by
  decide

/-- The sample information file is echoed under its header. -/
theorem sample_info_output :
    read_file sample_files info_path "GPU Info".toList
      = "== GPU Info ==\nModel: X\nIRQ: 5\n".toList := by
  decide

/-- Dropping the lines that do not decode does not change the decoded rows. -/
theorem filterMap_rows_filter (lines : List (List Char)) :
    (lines.filter (fun l => (row_of_line l).isSome)).filterMap row_of_line
      = lines.filterMap row_of_line := by
  induction lines with
  | nil => rfl
  | cons l ls ih =>
    cases hrow : row_of_line l <;>
      simp [List.filter_cons, List.filterMap_cons, hrow, ih]

/-- C7 (as stated, refuted): the single table line `long_line` (264 characters) has the
expected shape and decodes to the row `{1, C, 5}`, yet `print_gpu_processes` renders two
rows for it, `{1, C, 5}` and `{2, G, 7}`: the line is read as two buffers of at most 255
characters and each is decoded on its own. -/
theorem long_line_renders_two_rows :
    row_of_line long_line = some { pid := 1, type := 'C', mem := 5 } ∧
    print_gpu_processes long_line_files
      = table_header ++ printf_row { pid := 1, type := 'C', mem := 5 }
          ++ printf_row { pid := 2, type := 'G', mem := 7 } ∧
    print_gpu_processes long_line_files
      ≠ table_header ++ ([long_line].filterMap row_of_line).flatMap printf_row := by
  refine ⟨?_, ?_, ?_⟩ <;> decide

/-- C7 (amended): for every process table made of newline-terminated lines of at most
254 characters each (a line and its newline fit the 256-byte buffer),
`print_gpu_processes` renders, after the two header lines, exactly one row
`{pid, type, memory}` for each line that matches the shape
`{gpu index, pid, type-tag, ignored token, memory}`, in input order and with that
line's own values, and nothing for a line that does not match; so the output is the
same as for the table with the non-matching lines removed. -/
theorem print_gpu_processes_rows (fs : Files) (lines : List (List Char))
    (hfile : fs processes_path = some (file_of_lines lines))
    (hshort : ∀ l ∈ lines, l.length ≤ 254 ∧ ∀ c ∈ l, c ≠ '\n') :
    print_gpu_processes fs
      = table_header ++ (lines.filterMap row_of_line).flatMap printf_row ∧
    (∀ fs1 : Files,
      fs1 processes_path
          = some (file_of_lines (lines.filter (fun l => (row_of_line l).isSome))) →
      print_gpu_processes fs1 = print_gpu_processes fs) := by
  have main : ∀ (g : Files) (ls : List (List Char)),
      g processes_path = some (file_of_lines ls) →
      (∀ l ∈ ls, l.length ≤ 254 ∧ ∀ c ∈ l, c ≠ '\n') →
      print_gpu_processes g = table_header ++ (ls.filterMap row_of_line).flatMap printf_row := by
    intro g ls hg hs
    simp only [print_gpu_processes, hg]
    rw [print_gpu_processes_loop_eq ls _ (Nat.le_refl _) hs]
  refine ⟨main fs lines hfile hshort, ?_⟩
  intro fs1 h1
  rw [main fs lines hfile hshort,
    main fs1 _ h1 (fun l hl => hshort l (List.mem_of_mem_filter hl))]
  rw [filterMap_rows_filter]

theorem print_gpu_processes_rows_witness :
    print_gpu_processes sample_files
      = table_header
        ++ (["0 1234 C python 512".toList, "0 77 G".toList,
              "0 4321 G Xorg 64".toList].filterMap row_of_line).flatMap printf_row ∧
    (∀ fs1 : Files,
      fs1 processes_path
          = some (file_of_lines (["0 1234 C python 512".toList, "0 77 G".toList,
              "0 4321 G Xorg 64".toList].filter (fun l => (row_of_line l).isSome))) →
      print_gpu_processes fs1 = print_gpu_processes sample_files) :=
  print_gpu_processes_rows sample_files
    ["0 1234 C python 512".toList, "0 77 G".toList, "0 4321 G Xorg 64".toList] rfl (by decide)

/-- The table step reads nothing but the process table. -/
theorem print_gpu_processes_congr (fs fs1 : Files)
    (h : fs1 processes_path = fs processes_path) :
    print_gpu_processes fs1 = print_gpu_processes fs := by
  simp only [print_gpu_processes, h]

/-- The information step reads nothing but the file at its path. -/
theorem read_file_congr (fs fs1 : Files) (path : String) (label : List Char)
    (h : fs1 path = fs path) : read_file fs1 path label = read_file fs path label := by
  simp only [read_file, h]

/-- C8: when the information file is absent (`fs1`), `read_file` writes nothing, not
even its header, and the cycle's output is exactly what `print_gpu_processes` renders,
followed by the sleep; when the process table is absent (`fs2`), `print_gpu_processes`
writes nothing, not even its header, and the cycle's output is exactly what `read_file`
renders, followed by the sleep. Removing one source from any file system leaves the
output rendered for the other unchanged, and every iteration of the polling loop
completes. -/
theorem absent_source_is_skipped (fs1 fs2 : Files) (delay_ms : Int) (label : List Char)
    (h1 : fs1 info_path = none) (h2 : fs2 processes_path = none) :
    read_file fs1 info_path label = [] ∧
    gpu_poll_cycle fs1 delay_ms
      = { output := print_gpu_processes fs1, usleep := delay_ms * 1000 } ∧
    print_gpu_processes fs2 = [] ∧
    gpu_poll_cycle fs2 delay_ms
      = { output := read_file fs2 info_path "GPU Info".toList, usleep := delay_ms * 1000 } ∧
    (∀ fs : Files,
      print_gpu_processes (Function.update fs info_path none) = print_gpu_processes fs ∧
      read_file (Function.update fs processes_path none) info_path label
        = read_file fs info_path label) ∧
    (∀ (fss : Nat → Files) (n : Nat),
      gpu_poll_thread delay_ms fss (n + 1)
        = gpu_poll_thread delay_ms fss n ++ [gpu_poll_cycle (fss n) delay_ms]) := by
  have hne : processes_path ≠ info_path := by decide
  refine ⟨?_, ?_, ?_, ?_, ?_, ?_⟩
  · simp only [read_file, h1]
  · simp only [gpu_poll_cycle, read_file, h1, List.nil_append]
  · simp only [print_gpu_processes, h2]
  · simp only [gpu_poll_cycle, print_gpu_processes, h2, List.append_nil]
  · intro fs
    exact ⟨print_gpu_processes_congr _ _ (Function.update_noteq hne _ _),
      read_file_congr _ _ _ _ (Function.update_noteq hne.symm _ _)⟩
  · intro fss n
    simp [gpu_poll_thread, List.range_succ]

theorem absent_source_is_skipped_witness :
    read_file (Function.update sample_files info_path none) info_path "GPU Info".toList = [] ∧
    gpu_poll_cycle (Function.update sample_files info_path none) 1000
      = { output := print_gpu_processes (Function.update sample_files info_path none),
          usleep := 1000 * 1000 } ∧
    print_gpu_processes (Function.update sample_files processes_path none) = [] ∧
    gpu_poll_cycle (Function.update sample_files processes_path none) 1000
      = { output := read_file (Function.update sample_files processes_path none) info_path
            "GPU Info".toList,
          usleep := 1000 * 1000 } ∧
    (∀ fs : Files,
      print_gpu_processes (Function.update fs info_path none) = print_gpu_processes fs ∧
      read_file (Function.update fs processes_path none) info_path "GPU Info".toList
        = read_file fs info_path "GPU Info".toList) ∧
    (∀ (fss : Nat → Files) (n : Nat),
      gpu_poll_thread 1000 fss (n + 1)
        = gpu_poll_thread 1000 fss n ++ [gpu_poll_cycle (fss n) 1000]) :=
  absent_source_is_skipped (Function.update sample_files info_path none)
    (Function.update sample_files processes_path none) 1000 "GPU Info".toList
    (by simp) (by simp)

/-! ## Concurrent callers -/

/-- A thread that runs its read and its write back to back adds its size. -/
theorem race_step_twice (sizes : List Nat) (i : Nat) (c : Racing)
    (h : c.phase i = Phase.before_read) :
    race_step sizes i (race_step sizes i c)
      = { process_total := (c.process_total + sizes.getD i 0) % SIZE_MOD
          phase := Function.update c.phase i Phase.returned } := by
  have h1 : race_step sizes i c
      = { c with phase := Function.update c.phase i (Phase.after_read c.process_total) } := by
    simp only [race_step, h]
  rw [h1]
  simp only [race_step, Function.update_same, Function.update_idem]

/-- An uninterrupted read and write is the counter update of one `cudaMalloc` call. -/
theorem race_step_twice_counter (sizes : List Nat) (i : Nat) (c : Racing) (ptr : Ptr)
    (h : c.phase i = Phase.before_read) :
    (race_step sizes i (race_step sizes i c)).process_total
      = counter_after (Call.malloc ptr (sizes.getD i 0)) c.process_total := by
  rw [race_step_twice sizes i c h]
  rfl

theorem serial_schedule_cons (i : Nat) (order : List Nat) :
    serial_schedule (i :: order) = i :: i :: serial_schedule order := by
  simp [serial_schedule]

/-- Threads that run one after the other each add their size, modulo `2 ^ 64`. -/
theorem race_exec_serial (sizes : List Nat) : ∀ (order : List Nat) (c : Racing),
    order.Nodup → (∀ i ∈ order, c.phase i = Phase.before_read) →
    c.process_total < SIZE_MOD →
    (race_exec sizes (serial_schedule order) c).process_total
        = (c.process_total + (order.map (fun i => sizes.getD i 0)).sum) % SIZE_MOD ∧
    ∀ j, (race_exec sizes (serial_schedule order) c).phase j
        = if j ∈ order then Phase.returned else c.phase j := by
  intro order
  induction order with
  | nil =>
    intro c _ _ hlt
    simp [serial_schedule, race_exec, Nat.mod_eq_of_lt hlt]
  | cons i is ih =>
    intro c hnd hph hlt
    have hi : c.phase i = Phase.before_read := hph i (List.mem_cons_self _ _)
    obtain ⟨hnotin, hnd1⟩ := List.nodup_cons.mp hnd
    have hexec : race_exec sizes (serial_schedule (i :: is)) c
        = race_exec sizes (serial_schedule is)
            { process_total := (c.process_total + sizes.getD i 0) % SIZE_MOD
              phase := Function.update c.phase i Phase.returned } := by
      rw [serial_schedule_cons, ← race_step_twice sizes i c hi]
      rfl
    rw [hexec]
    obtain ⟨htot, hphase⟩ := ih
      { process_total := (c.process_total + sizes.getD i 0) % SIZE_MOD
        phase := Function.update c.phase i Phase.returned } hnd1
      (by
        intro j hj
        have hji : j ≠ i := fun h => hnotin (h ▸ hj)
        simp only [Function.update_noteq hji]
        exact hph j (List.mem_cons_of_mem _ hj))
      (Nat.mod_lt _ (by decide))
    constructor
    · rw [htot]
      simp only [List.map_cons, List.sum_cons, Nat.mod_add_mod, Nat.add_assoc]
    · intro j
      rw [hphase j]
      by_cases hj : j ∈ is
      · simp [hj]
      · by_cases hji : j = i
        · subst hji; simp [hj]
        · simp [hj, hji, Function.update_noteq hji]

theorem map_getD_range (sizes : List Nat) :
    (List.range sizes.length).map (fun i => sizes.getD i 0) = sizes := by
  apply List.ext_getElem
  · simp
  · intro n h1 h2
    simp [List.getD_eq_getElem?_getD, List.getElem?_eq_getElem h2]

/-- C9 (as stated, refuted): two threads call the hook with sizes `1` and `2`; under the
interleaving read(0), read(1), write(0), write(1) both calls have returned and the
counter is `2`, not `1 + 2`: the update of thread 0 is lost. -/
theorem interleaved_update_is_lost :
    all_returned 2 (race_exec [1, 2] [0, 1, 0, 1] Racing.start) = true ∧
    (race_exec [1, 2] [0, 1, 0, 1] Racing.start).process_total = 2 ∧
    (race_exec [1, 2] [0, 1, 0, 1] Racing.start).process_total ≠ 1 + 2 := by
  refine ⟨?_, ?_, ?_⟩ <;> decide

/-- C9 (amended): when `K` threads call the `cudaMalloc` hook with sizes `s1..sK` and
their counter updates are not interleaved, that is each thread's read and write of the
counter run back to back, the threads taking their turns in any order, all `K` calls
return and the counter equals `(s1 + ... + sK) mod 2 ^ 64`. -/
theorem serial_updates_are_kept (sizes : List Nat) (order : List Nat)
    (hperm : order.Perm (List.range sizes.length)) :
    all_returned sizes.length (race_exec sizes (serial_schedule order) Racing.start) = true ∧
    (race_exec sizes (serial_schedule order) Racing.start).process_total
      = sizes.sum % SIZE_MOD := by
  have hnd : order.Nodup := hperm.nodup_iff.mpr (List.nodup_range _)
  obtain ⟨htot, hphase⟩ := race_exec_serial sizes order Racing.start hnd
    (fun _ _ => rfl) (by show 0 < SIZE_MOD; decide)
  constructor
  · simp only [all_returned, List.all_eq_true, decide_eq_true_eq, List.mem_range]
    intro i hi
    rw [hphase i, if_pos (hperm.mem_iff.mpr (List.mem_range.mpr hi))]
  · rw [htot, (hperm.map _).sum_eq, map_getD_range]
    simp [Racing.start]

theorem serial_updates_are_kept_witness :
    all_returned [5, 7, 11].length
        (race_exec [5, 7, 11] (serial_schedule [2, 0, 1]) Racing.start) = true ∧
    (race_exec [5, 7, 11] (serial_schedule [2, 0, 1]) Racing.start).process_total
      = [5, 7, 11].sum % SIZE_MOD :=
  serial_updates_are_kept [5, 7, 11] [2, 0, 1] (by decide)

end Mgm
